import Mathlib

/-!
Verification development for the safe_network repository.

This file gives a shallow embedding, in Lean 4, of the parts of the code that
the checked properties are about:

* the client session's query fan-out loop (`src/client/connections/messaging.rs`,
  `Session::send_query`);
* the section membership state (`src/routing/section/mod.rs`: `Section::update_member`,
  `Section::promote_and_demote_elders`, `Section::try_split`);
* the DKG voter (`src/routing/dkg/voter.rs`: `DkgVoter::start`,
  `DkgVoter::process_message`);
* the wire codec (`src/messaging/serialisation/wire_msg.rs`: `WireMsg::serialize`,
  `WireMsg::from`).

Cryptographic primitives (BLS keys and signatures, hashes) are modelled
symbolically: a signature record carries the key and the signed value, and
verification is equality of that record with the expected pair.  Code of the
repository that is referenced but whose file is not part of the snapshot
(for example `SectionPeers::update`, the DKG `Session`/`Backlog`, and
`WireMsgHeader`) is modelled from the specification; each such definition says
so in its doc comment.
-/

/-! ## Client session: query fan-out (`src/client/connections/messaging.rs`) -/

/-- `NUM_OF_ELDERS_SUBSET_FOR_QUERIES` from `src/client/connections/messaging.rs`:
number of elders a client sends each query to. -/
def NUM_OF_ELDERS_SUBSET_FOR_QUERIES : Nat := 3

/-- A socket address, abstracted to a natural number. -/
abbrev Addr := Nat

/-- A 256-bit XOR name, abstracted to a natural number for the client-side
model; the XOR distance of two names is `Nat.xor`. -/
abbrev XorName := Nat

/-- Address of a chunk; carries the XOR name the chunk is stored under. -/
structure ChunkAddress where
  name : XorName
deriving DecidableEq

/-- A stored chunk.  Modelled from the spec: in the `types` crate (absent from
the snapshot) a chunk's `name()` is the hash of its content, so the model
carries that hash directly as the `name` field. -/
structure Chunk where
  name : XorName
deriving DecidableEq

/-- An error payload inside a query response (`messaging::data::Error`),
abstracted. -/
abbrev SnDataError := Nat

deriving instance DecidableEq for Except

/-- The query-response variants that `Session::send_query` matches on
(`src/client/connections/messaging.rs` lines 282-313); every remaining
variant of the real enum is collapsed into `otherResponse`. -/
inductive QueryResponse where
  | getChunk (res : Except SnDataError Chunk)
  | getRegister (res : Except SnDataError Nat) (extra : Nat)
  | getRegisterPolicy (res : Except SnDataError Nat) (extra : Nat)
  | getRegisterOwner (res : Except SnDataError Nat) (extra : Nat)
  | getRegisterUserPermissions (res : Except SnDataError Nat) (extra : Nat)
  | otherResponse (v : Nat)
deriving DecidableEq

/-- Client-side errors of `Session::send_query` (`src/client/Error`),
restricted to the variants the embedded code produces. -/
inductive ClientError where
  | insufficientElderConnections (got : Nat) (expected : Nat)
  | noNetworkKnowledge
  | noResponse
deriving DecidableEq

/-- A data query, reduced to the two shapes `send_query` distinguishes:
chunk queries (which carry a `ChunkAddress`) and all other queries. -/
inductive DataQuery where
  | getChunk (addr : ChunkAddress)
  | otherQuery (dst : XorName)
deriving DecidableEq

/-- Modelled from the spec: `DataQuery::dst_name` (in `messaging::data`,
absent from the snapshot) returns the XOR name a query is addressed to; for
a chunk query that is the name of the chunk address. -/
def DataQuery.dstName : DataQuery → XorName
  | .getChunk a => a.name
  | .otherQuery d => d

/-- The `chunk_addr` binding at the top of `Session::send_query`:
`Some(address)` exactly for chunk queries. -/
def DataQuery.chunkAddr : DataQuery → Option ChunkAddress
  | .getChunk a => some a
  | .otherQuery _ => none

/-- The response loop of `Session::send_query`
(`src/client/connections/messaging.rs` lines 279-322).

The channel is modelled as the list `rs` of responses that will be received,
in order; an empty list is a closed channel (`recv` returns `None`).
`d` is the running `discarded_responses` counter (it starts at the number of
tasks whose join failed, counted just before the loop), and `eldersLen` is
the number of selected elders.  The function returns the `response` value the
loop breaks with, together with the final discarded count.  Each iteration
starts with `error_response = None`; the arms are, in source order: a valid
chunk is accepted, an invalid chunk is discarded, the error arms save the
error and discard, any other received response is returned by the catch-all,
and a closed channel breaks with `None`.  After the non-breaking arms, the
loop breaks with the saved `error_response` once `discarded = eldersLen`. -/
def queryLoop (chunkAddr : Option ChunkAddress) (eldersLen : Nat) :
    Nat → List QueryResponse → Option QueryResponse × Nat
  | d, [] => (none, d)
  | d, r :: rest =>
    match r, chunkAddr with
    | .getChunk (.ok chunk), some ca =>
        if ca.name = chunk.name then
          (some (.getChunk (.ok chunk)), d)
        else
          if d + 1 = eldersLen then (none, d + 1)
          else queryLoop chunkAddr eldersLen (d + 1) rest
    | .getChunk (.error e), some _ =>
        if d + 1 = eldersLen then (some (.getChunk (.error e)), d + 1)
        else queryLoop chunkAddr eldersLen (d + 1) rest
    | .getRegister (.error e) x, none =>
        if d + 1 = eldersLen then (some (.getRegister (.error e) x), d + 1)
        else queryLoop chunkAddr eldersLen (d + 1) rest
    | .getRegisterPolicy (.error e) x, none =>
        if d + 1 = eldersLen then (some (.getRegisterPolicy (.error e) x), d + 1)
        else queryLoop chunkAddr eldersLen (d + 1) rest
    | .getRegisterOwner (.error e) x, none =>
        if d + 1 = eldersLen then (some (.getRegisterOwner (.error e) x), d + 1)
        else queryLoop chunkAddr eldersLen (d + 1) rest
    | .getRegisterUserPermissions (.error e) x, none =>
        if d + 1 = eldersLen then (some (.getRegisterUserPermissions (.error e) x), d + 1)
        else queryLoop chunkAddr eldersLen (d + 1) rest
    | r, _ => (some r, d)

/-- The tail of `Session::send_query` (lines 339-350): a response obtained by
the loop is the query result, and obtaining none at all is `Error::NoResponse`. -/
def sendQueryOutcome (chunkAddr : Option ChunkAddress) (eldersLen d : Nat)
    (rs : List QueryResponse) : Except ClientError QueryResponse :=
  match (queryLoop chunkAddr eldersLen d rs).1 with
  | some r => .ok r
  | none => .error .noResponse

/-- Whether a response is an error response of the kind the loop's error arms
save as a fallback for this query: a chunk error for a chunk query
(`chunkAddr` is `some`), a register-query error for any other query. -/
def isHeldError (chunkAddr : Option ChunkAddress) (r : QueryResponse) : Bool :=
  match r, chunkAddr with
  | .getChunk (.error _), some _ => true
  | .getRegister (.error _) _, none => true
  | .getRegisterPolicy (.error _) _, none => true
  | .getRegisterOwner (.error _) _, none => true
  | .getRegisterUserPermissions (.error _) _, none => true
  | _, _ => false

/-- Whether a response carries an error, independently of the query kind. -/
def isErrorResponse : QueryResponse → Bool
  | .getChunk (.error _) => true
  | .getRegister (.error _) _ => true
  | .getRegisterPolicy (.error _) _ => true
  | .getRegisterOwner (.error _) _ => true
  | .getRegisterUserPermissions (.error _) _ => true
  | _ => false

/-- Insertion step of the stable sort used for
`sorted_by(|(lhs, _), (rhs, _)| dst.cmp_distance(lhs_name, rhs_name))`:
`cmp_distance` compares the XOR distances to `dst`. -/
def insertByDist (dst : XorName) (x : XorName × Addr) :
    List (XorName × Addr) → List (XorName × Addr)
  | [] => [x]
  | y :: ys =>
      if Nat.xor x.1 dst ≤ Nat.xor y.1 dst then x :: y :: ys
      else y :: insertByDist dst x ys

/-- Stable sort of the elder list by XOR distance of the elder name to `dst`. -/
def sortByDist (dst : XorName) : List (XorName × Addr) → List (XorName × Addr)
  | [] => []
  | x :: xs => insertByDist dst x (sortByDist dst xs)

/-- The `chosen_elders` computation of `Session::send_query` (lines 168-173):
sort the known elders by XOR distance to `dst`, keep the addresses, take the
first `NUM_OF_ELDERS_SUBSET_FOR_QUERIES`. -/
def chosenElders (dst : XorName) (elders : List (XorName × Addr)) : List Addr :=
  ((sortByDist dst elders).map Prod.snd).take NUM_OF_ELDERS_SUBSET_FOR_QUERIES

/-- The insufficient-elder guard of `Session::send_query` (lines 175-181):
fail with `InsufficientElderConnections` when
`elders_len < NUM_OF_ELDERS_SUBSET_FOR_QUERIES && elders_len > 1`, otherwise
proceed with the chosen elders as the send targets. -/
def selectQueryTargets (dst : XorName) (elders : List (XorName × Addr)) :
    Except ClientError (List Addr) :=
  if (chosenElders dst elders).length < NUM_OF_ELDERS_SUBSET_FOR_QUERIES ∧
      (chosenElders dst elders).length > 1 then
    .error (.insufficientElderConnections (chosenElders dst elders).length
      NUM_OF_ELDERS_SUBSET_FOR_QUERIES)
  else
    .ok (chosenElders dst elders)

/-! ## Section membership (`src/routing/section/mod.rs`) -/

/-- A BLS public key, abstracted to a natural number. -/
abbrev BlsKey := Nat

/-- Names in the routing layer are bit strings (most significant bit first);
a real XOR name has 256 bits. -/
abbrev XNameB := List Bool

/-- Bit `i` of a name, index 0 being the most significant bit
(`xor_name::XorName::bit`). -/
def XNameB.bit (nm : XNameB) (i : Nat) : Bool := nm.getD i false

/-- A section prefix: a bit string of length 0 to 256. -/
abbrev Pfx := List Bool

/-- The section key chain (the external `secured_linked_list` crate),
modelled by its key set as a list: the root key first, each key signed by its
predecessor.  The embedded code only consults key membership (`has_key`) and
the relative position of keys, so the model keeps exactly that. -/
abbrev SectionChain := List BlsKey

/-- `SecuredLinkedList::has_key`. -/
def SectionChain.hasKey (chain : SectionChain) (k : BlsKey) : Bool := chain.contains k

/-- Position of a key on the chain (0 is the root); `length` if absent.
Used to order signatures by the age of their signing key. -/
def SectionChain.keyIndex (chain : SectionChain) (k : BlsKey) : Nat := chain.indexOf k

/-- A peer: name plus connection info (`messaging::system::Peer`). -/
structure Peer where
  name : XNameB
  addr : Addr
  reachable : Bool
deriving DecidableEq

/-- `messaging::system::section::MembershipState`
(src/messaging/system/section/node_state.rs). -/
inductive MembershipState where
  | joined
  | left
  | relocated (dest : XNameB)
deriving DecidableEq

/-- `messaging::system::section::NodeState`
(src/messaging/system/section/node_state.rs). -/
structure NodeState where
  peer : Peer
  state : MembershipState
  previousName : Option XNameB
deriving DecidableEq

/-- Name of the node a state describes. -/
def NodeState.name (ns : NodeState) : XNameB := ns.peer.name

/-- A symbolic signature: it records which key produced it and which value it
signs, and verification is equality with the expected pair.  This models
unforgeable BLS signatures without the underlying cryptography. -/
structure SymSig (T : Type) where
  byKey : BlsKey
  overValue : T
deriving DecidableEq

/-- `messaging::system::KeyedSig`: a signature together with the public key
that (allegedly) produced it. -/
structure KeyedSig (T : Type) where
  publicKey : BlsKey
  signature : SymSig T
deriving DecidableEq

/-- `SectionAuth<T>`: a value together with a keyed section signature over it. -/
structure SectionAuth (T : Type) where
  value : T
  sig : KeyedSig T
deriving DecidableEq

/-- `SectionAuth::self_verify`: the carried signature verifies over the
carried value with the declared public key. -/
def SectionAuth.selfVerify {T : Type} [DecidableEq T] (a : SectionAuth T) : Bool :=
  a.sig.signature = ⟨a.sig.publicKey, a.value⟩

/-- `SectionAuth::verify` (the `SectionAuthUtils` trait in `routing/dkg`,
absent from the snapshot).  Modelled from the spec: a node state is
authoritative only when its signature verifies and the signing key is a key
of the section chain. -/
def SectionAuth.verify {T : Type} [DecidableEq T] (a : SectionAuth T)
    (chain : SectionChain) : Bool :=
  chain.hasKey a.sig.publicKey && a.selfVerify

/-- Precedence of membership states used by the supersede ordering
(spec §3: `Joined < Relocated < Left` for the latest known state). -/
def stateRank : MembershipState → Nat
  | .joined => 0
  | .relocated _ => 1
  | .left => 2

/-- Modelled from the spec (§3): a record supersedes another for the same
name when it is signed by a strictly later chain key, or by the same-rank key
with a strictly later membership state. -/
def supersedes (chain : SectionChain) (newR oldR : SectionAuth NodeState) : Bool :=
  (chain.keyIndex oldR.sig.publicKey < chain.keyIndex newR.sig.publicKey) ||
    (chain.keyIndex oldR.sig.publicKey = chain.keyIndex newR.sig.publicKey &&
      stateRank oldR.value.state < stateRank newR.value.state)

/-- Modelled from the spec (§4.4): `SectionPeers::update` (the file
`section_peers.rs` is absent from the snapshot) replaces the record for the
same name iff the new record strictly supersedes the old one, inserts a record
for a fresh name, and otherwise changes nothing; it returns whether anything
changed. -/
def SectionPeers.update (chain : SectionChain) (members : List (SectionAuth NodeState))
    (ns : SectionAuth NodeState) : Bool × List (SectionAuth NodeState) :=
  match members.find? (fun m => decide (m.value.name = ns.value.name)) with
  | none => (true, ns :: members)
  | some old =>
      if supersedes chain ns old then
        (true, ns :: members.filter (fun m => decide (¬ m.value.name = ns.value.name)))
      else
        (false, members)

/-- The `Section` state (`messaging::system::Section`): genesis key, chain,
signed section authority provider (not needed by the member operations, hence
abstracted to its signing key here), and the member records. -/
structure SnSection where
  genesisKey : BlsKey
  chain : SectionChain
  sectionKey : BlsKey
  members : List (SectionAuth NodeState)
deriving DecidableEq

/-- `Section::update_member` (src/routing/section/mod.rs lines 205-212):
reject (returning `false`, with the section unchanged) any signed node state
that does not verify against the chain, otherwise delegate to
`SectionPeers::update`. -/
def SnSection.updateMember (s : SnSection) (nodeState : SectionAuth NodeState) :
    Bool × SnSection :=
  if !(nodeState.verify s.chain) then
    (false, s)
  else
    let r := SectionPeers.update s.chain s.members nodeState
    (r.1, { s with members := r.2 })

/-- A small concrete section used to instantiate the membership theorems. -/
def c1Section : SnSection := ⟨1, [1], 1, []⟩

/-- A signed node state whose signing key (2) is not on `c1Section`'s chain. -/
def c1BadState : SectionAuth NodeState :=
  ⟨⟨⟨[], 0, true⟩, .joined, none⟩, ⟨2, ⟨2, ⟨⟨[], 0, true⟩, .joined, none⟩⟩⟩⟩

/-- A signed node state correctly signed by `c1Section`'s chain key (1). -/
def c1GoodState : SectionAuth NodeState :=
  ⟨⟨⟨[], 0, true⟩, .joined, none⟩, ⟨1, ⟨1, ⟨⟨[], 0, true⟩, .joined, none⟩⟩⟩⟩

/-- `ELDER_SIZE`: maximum number of elders per section (crate root constant,
absent from the snapshot; value 7 from the spec). -/
def ELDER_SIZE : Nat := 7

/-- `RECOMMENDED_SECTION_SIZE`: minimum number of mature members each half
must have for a split (crate root constant, absent from the snapshot;
value 10 from the spec). -/
def RECOMMENDED_SECTION_SIZE : Nat := 10

/-- `routing::supermajority` (absent from the snapshot; spec:
`supermajority(n) = n*2/3 + 1` with integer division). -/
def supermajority (n : Nat) : Nat := n * 2 / 3 + 1

/-- `messaging::system::ElderCandidates`: the proposed elders (name-to-address
map, kept as an association list) and the prefix they are proposed for. -/
structure ElderCandidates where
  elders : List (XNameB × Addr)
  pfx : Pfx
deriving DecidableEq

/-- `ElderCandidates::new(elders, prefix)`: build the candidate set from a
peer list. -/
def ElderCandidates.ofPeers (peers : List Peer) (pfx : Pfx) : ElderCandidates :=
  ⟨peers.map (fun p => (p.name, p.addr)), pfx⟩

/-- `Prefix::pushed(bit)`: extend a prefix by one bit. -/
def Pfx.pushed (p : Pfx) (b : Bool) : Pfx := p ++ [b]

/-- The classification fold of `Section::try_split` (lines 332-343): count the
mature, non-excluded members whose bit at index `pfx.length` agrees with our
name's bit there (`ours`) and those whose bit differs (`siblings`). -/
def splitCounts (pfx : Pfx) (ourName : XNameB) (mature : List Peer)
    (excludedNames : Finset XNameB) : Nat × Nat :=
  ((mature.filter (fun p => decide (p.name ∉ excludedNames))).map
      (fun p => p.name.bit pfx.length == ourName.bit pfx.length)).foldl
    (fun os isOur => if isOur then (os.1 + 1, os.2) else (os.1, os.2 + 1))
    ((0 : Nat), (0 : Nat))

/-- `Section::try_split` (src/routing/section/mod.rs lines 318-370).

`mature` stands for `self.members.mature()` and `selElders cp` for
`self.members.elder_candidates_matching_prefix(cp, ELDER_SIZE, sap, excluded)`
(both in `section_peers.rs`, absent from the snapshot).  The u8 conversion of
`bit_count` succeeds exactly when the prefix is shorter than 256 bits;
otherwise the section is at the longest prefix and cannot split. -/
def trySplit (pfx : Pfx) (ourName : XNameB) (mature : List Peer)
    (excludedNames : Finset XNameB) (selElders : Pfx → List Peer) :
    Option (ElderCandidates × ElderCandidates) :=
  if pfx.length < 256 then
    let nextBit := ourName.bit pfx.length
    let counts := splitCounts pfx ourName mature excludedNames
    if counts.1 < RECOMMENDED_SECTION_SIZE ∨ counts.2 < RECOMMENDED_SECTION_SIZE then
      none
    else
      some (ElderCandidates.ofPeers (selElders (pfx.pushed nextBit)) (pfx.pushed nextBit),
        ElderCandidates.ofPeers (selElders (pfx.pushed (!nextBit))) (pfx.pushed (!nextBit)))
  else
    none

/-- `Section::promote_and_demote_elders` (src/routing/section/mod.rs lines
235-265).  `splitResult` stands for the result of `self.try_split(...)` and
`expectedPeers` for `self.members.elder_candidates(ELDER_SIZE, sap, excluded)`
(in `section_peers.rs`, absent from the snapshot); `currentNames` is
`self.authority_provider().names()` and `pfx` the section's prefix. -/
def promoteAndDemoteElders (splitResult : Option (ElderCandidates × ElderCandidates))
    (expectedPeers : List Peer) (currentNames : Finset XNameB) (pfx : Pfx) :
    List ElderCandidates :=
  match splitResult with
  | some (ours, others) => [ours, others]
  | none =>
      if (expectedPeers.map Peer.name).toFinset = currentNames then
        []
      else if (expectedPeers.map Peer.name).toFinset.card < supermajority currentNames.card then
        []
      else
        [ElderCandidates.ofPeers expectedPeers pfx]

/-! ## DKG voter (`src/routing/dkg/voter.rs`) -/

/-- A BLS secret key set (`bls::SecretKeySet`), symbolically: its threshold
and the randomness it was drawn from. -/
structure SecretKeySet where
  threshold : Nat
  seed : Nat
deriving DecidableEq

/-- A BLS public key set (`bls::PublicKeySet`), mirroring the secret set. -/
structure PublicKeySet where
  threshold : Nat
  seed : Nat
deriving DecidableEq

/-- A BLS secret key share (`bls::SecretKeyShare`). -/
structure SecretKeyShare where
  index : Nat
  seed : Nat
deriving DecidableEq

/-- `bls::SecretKeySet::random(threshold, rng)`: the rng draw is `seed`. -/
def SecretKeySet.random (threshold seed : Nat) : SecretKeySet := ⟨threshold, seed⟩

/-- `SecretKeySet::public_keys`. -/
def SecretKeySet.publicKeys (s : SecretKeySet) : PublicKeySet := ⟨s.threshold, s.seed⟩

/-- `SecretKeySet::secret_key_share(i)`. -/
def SecretKeySet.secretKeyShare (s : SecretKeySet) (i : Nat) : SecretKeyShare := ⟨i, s.seed⟩

/-- `SectionAuthorityProvider` (its defining file
`section_authority_provider.rs` is absent from the snapshot; fields from the
spec §3): prefix, elder name-to-address map, BLS public key set. -/
structure SectionAuthorityProvider where
  pfx : Pfx
  elders : List (XNameB × Addr)
  publicKeySet : PublicKeySet
deriving DecidableEq

/-- Modelled from the spec: `SectionAuthorityProvider::from_elder_candidates`
builds the SAP for the candidates' prefix and elder set with the freshly
generated key set. -/
def SectionAuthorityProvider.fromElderCandidates (ec : ElderCandidates)
    (pks : PublicKeySet) : SectionAuthorityProvider :=
  ⟨ec.pfx, ec.elders, pks⟩

/-- `SectionKeyShare` (fields as used in `src/routing/dkg/voter.rs` lines
98-103): the public key set, our index, and our secret key share. -/
structure SectionKeyShare where
  publicKeySet : PublicKeySet
  index : Nat
  secretKeyShare : SecretKeyShare
deriving DecidableEq

/-- Modelled from the spec: a `DkgSessionId` identifies one DKG run; `hash`
stands for the digest of the proposed prefix and elder-candidate set, and
`generation` is the chain length at proposal time (the voter compares
generations when pruning, `src/routing/dkg/voter.rs` lines 132-136). -/
structure DkgSessionId where
  hash : Nat
  generation : Nat
deriving DecidableEq

/-- A DKG protocol message (`bls_dkg::key_gen::message::Message`), opaque. -/
abbrev DkgMessage := Nat

/-- Modelled from the spec: `ElderCandidates::position(name)` (the
`ElderCandidatesUtils` trait, absent from the snapshot) is the index of the
name in the ordered elder map. -/
def ElderCandidates.position (ec : ElderCandidates) (nm : XNameB) : Option Nat :=
  (ec.elders.map Prod.fst).findIdx? (fun x => decide (x = nm))

/-- The external `bls_dkg::KeyGen` state machine, modelled by the data the
checked properties need: its initialization parameters and the ordered log of
messages fed to it. -/
structure KeyGen where
  ourName : XNameB
  threshold : Nat
  participants : List XNameB
  log : List DkgMessage
deriving DecidableEq

/-- `bls_dkg::KeyGen::initialize` (external crate): the fresh state machine
plus an opaque initial broadcast message; failure of the external call is
modelled by the `initOk` flag of `DkgVoter.start`. -/
def KeyGen.make (nm : XNameB) (threshold : Nat) (participants : List XNameB) :
    KeyGen × DkgMessage :=
  (⟨nm, threshold, participants, []⟩, 0)

/-- `routing_api::command::Command` (absent from the snapshot), restricted to
the commands the embedded voter code produces: the DKG outcome command
(`src/routing/dkg/voter.rs` lines 97-104) and outgoing DKG messages. -/
inductive Command where
  | handleDkgOutcome (sectionAuth : SectionAuthorityProvider) (outcome : SectionKeyShare)
  | sendDkgMessage (dkgKey : DkgSessionId) (msg : DkgMessage)
deriving DecidableEq

/-- Modelled from the spec (§4.5): a DKG `Session`
(`routing/dkg/session.rs`, absent from the snapshot) holds the key generator,
the candidates, our participant index and a timer token, plus a completion
flag; failure votes are outside the model.  The messages a session has
consumed are `keyGen.log`, in arrival order. -/
structure DkgSession where
  keyGen : KeyGen
  elderCandidates : ElderCandidates
  participantIndex : Nat
  timerToken : Nat
  complete : Bool
deriving DecidableEq

/-- Modelled from the spec: `Session::process_message` feeds one DKG message
to the session's key generator; response messages the real generator may emit
are outside the model, so the command list is empty. -/
def DkgSession.processMessage (s : DkgSession) (msg : DkgMessage) :
    List Command × DkgSession :=
  ([], { s with keyGen := { s.keyGen with log := s.keyGen.log ++ [msg] } })

/-- Modelled from the spec: `Session::broadcast` sends the initial key-gen
message to all candidates, leaving the session state unchanged. -/
def DkgSession.broadcast (dkgKey : DkgSessionId) (msg : DkgMessage) : List Command :=
  [Command.sendDkgMessage dkgKey msg]

/-- Modelled from the spec: the DKG message `Backlog`
(`routing/dkg/session.rs`, absent from the snapshot) is a bounded FIFO of
(session id, message) pairs; pushing onto a full backlog drops the oldest
entry. -/
structure DkgBacklog where
  entries : List (DkgSessionId × DkgMessage)
  cap : Nat
deriving DecidableEq

/-- `Backlog::push`: append, evicting the oldest entry when full. -/
def DkgBacklog.push (b : DkgBacklog) (k : DkgSessionId) (m : DkgMessage) : DkgBacklog :=
  { b with entries :=
      (if b.entries.length = b.cap then b.entries.drop 1 else b.entries) ++ [(k, m)] }

/-- `Backlog::take(key)`: remove and return, in arrival order, all messages
backlogged for `key`. -/
def DkgBacklog.take (b : DkgBacklog) (k : DkgSessionId) :
    List DkgMessage × DkgBacklog :=
  ((b.entries.filter (fun e => decide (e.1 = k))).map Prod.snd,
   { b with entries := b.entries.filter (fun e => decide (¬ e.1 = k)) })

/-- `Backlog::prune(key)`: retain only entries of generation at least the
given session's generation. -/
def DkgBacklog.prune (b : DkgBacklog) (k : DkgSessionId) : DkgBacklog :=
  { b with entries := b.entries.filter (fun e => decide (k.generation ≤ e.1.generation)) }

/-- The `DkgVoter` state (`src/routing/dkg/voter.rs` lines 46-54): the session
map (kept as an association list) and the message backlog. -/
structure DkgVoter where
  sessions : List (DkgSessionId × DkgSession)
  backlog : DkgBacklog
deriving DecidableEq

/-- `DkgVoter::start` (src/routing/dkg/voter.rs lines 67-146).

`ourName` stands for `ed25519::name(&node.keypair.public)`, `seed` for the
fresh randomness drawn in the single-participant special case, and `initOk`
for whether the external `KeyGen::initialize` call succeeds.  The paths are,
in source order: no-op if the session exists or we are not a candidate; the
single-candidate special case emits one `HandleDkgOutcome` with a fresh
threshold-0 key set; otherwise initialize the key generator, broadcast,
replay the backlog into the session, insert it, retain only sessions of
generation at least this session's, and prune the backlog likewise. -/
def DkgVoter.start (v : DkgVoter) (ourName : XNameB) (dkgKey : DkgSessionId)
    (elderCandidates : ElderCandidates) (seed : Nat) (initOk : Bool) :
    List Command × DkgVoter :=
  if (v.sessions.map Prod.fst).contains dkgKey then ([], v)
  else
    match elderCandidates.position ourName with
    | none => ([], v)
    | some participantIndex =>
      if elderCandidates.elders.length = 1 then
        let secretKeySet := SecretKeySet.random 0 seed
        ([Command.handleDkgOutcome
            (SectionAuthorityProvider.fromElderCandidates elderCandidates
              secretKeySet.publicKeys)
            ⟨secretKeySet.publicKeys, participantIndex, secretKeySet.secretKeyShare 0⟩],
          v)
      else
        if initOk then
          let kgInit := KeyGen.make ourName
            (supermajority elderCandidates.elders.length - 1)
            (elderCandidates.elders.map Prod.fst)
          let session0 : DkgSession := ⟨kgInit.1, elderCandidates, participantIndex, 0, false⟩
          let commands := DkgSession.broadcast dkgKey kgInit.2
          let bres := v.backlog.take dkgKey
          let session1 := bres.1.foldl (fun s m => (s.processMessage m).2) session0
          let sessions1 := v.sessions ++ [(dkgKey, session1)]
          (commands,
            { sessions :=
                sessions1.filter (fun e => decide (dkgKey.generation ≤ e.1.generation)),
              backlog := bres.2.prune dkgKey })
        else
          ([], v)

/-- `DkgVoter::process_message` (src/routing/dkg/voter.rs lines 167-180):
feed the message to the matching session; if the session is unknown, push the
message onto the backlog and produce no commands. -/
def DkgVoter.processMessage (v : DkgVoter) (dkgKey : DkgSessionId)
    (message : DkgMessage) : List Command × DkgVoter :=
  match v.sessions.find? (fun e => decide (e.1 = dkgKey)) with
  | some entry =>
      let r := entry.2.processMessage message
      (r.1,
        { v with sessions :=
            v.sessions.map (fun e => if e.1 = dkgKey then (e.1, r.2) else e) })
  | none => ([], { v with backlog := v.backlog.push dkgKey message })

/-- A DKG session record used in the generation-pruning counterexample. -/
def c8Session : DkgSession :=
  ⟨⟨[], 0, [], []⟩, ⟨[([true], 0), ([false], 1)], []⟩, 0, 0, false⟩

/-- A voter that already holds a generation-5 session. -/
def c8Voter : DkgVoter := ⟨[(⟨0, 5⟩, c8Session)], ⟨[], 100⟩⟩

/-! ## Wire codec (`src/messaging/serialisation/wire_msg.rs`) -/

/-- Big-endian fixed-width byte encoding of a natural number: `w` bytes, most
significant first. -/
def beBytes : Nat → Nat → List Nat
  | 0, _ => []
  | w + 1, n => (n / 256 ^ w) % 256 :: beBytes w n

/-- Big-endian byte decoding. -/
def natOfBe : List Nat → Nat
  | [] => 0
  | b :: bs => b * 256 ^ bs.length + natOfBe bs

/-- Read `w` bytes off the front of a byte string, returning the decoded
number and the remainder; fails on short input. -/
def readBytes (w : Nat) (bs : List Nat) : Option (Nat × List Nat) :=
  if w ≤ bs.length then some (natOfBe (bs.take w), bs.drop w) else none

/-- The wire format version constant (spec §6: a `u16` version field). -/
def MSG_HEADER_VERSION : Nat := 1

/-- `ClientSigned` (client authority): an ed25519 public key (32 bytes) and
signature (64 bytes) over the payload, abstracted to bounded naturals. -/
structure ClientSigned where
  publicKey : Nat
  signature : Nat
deriving DecidableEq

/-- `NodeSigned` (node authority): source section BLS key (48 bytes), node
ed25519 key (32 bytes) and signature (64 bytes). -/
structure NodeSigned where
  sectionPk : Nat
  publicKey : Nat
  signature : Nat
deriving DecidableEq

/-- `BlsShareSigned` (BLS-share authority): source section key, public key
share (48 bytes each) and signature share (96 bytes). -/
structure BlsShareSigned where
  sectionPk : Nat
  publicKeyShare : Nat
  signatureShare : Nat
deriving DecidableEq

/-- `SectionSigned` (section authority): source section key (48 bytes) and
BLS signature (96 bytes). -/
structure SectionSigned where
  sectionPk : Nat
  signature : Nat
deriving DecidableEq

/-- `MsgKind`, with the variants `WireMsg::to_message`
(src/messaging/serialisation/wire_msg.rs lines 104-175) matches on. -/
inductive MsgKind where
  | sectionInfoMsg
  | clientMsg (auth : ClientSigned)
  | nodeSignedMsg (auth : NodeSigned)
  | nodeBlsShareSignedMsg (auth : BlsShareSigned)
  | sectionSignedMsg (auth : SectionSigned)
deriving DecidableEq

/-- `DstLocation`: node or section destination (name plus destination section
key) or an end user (spec §3). -/
inductive DstLocation where
  | node (name : Nat) (sectionPk : Nat)
  | sectionDst (name : Nat) (sectionPk : Nat)
  | endUser (name : Nat)
deriving DecidableEq

/-- Modelled from the spec (§6): the msg-kind tag byte followed by the
fixed-width authority fields of the variant. -/
def encodeMsgKind : MsgKind → List Nat
  | .sectionInfoMsg => [0]
  | .clientMsg a => 1 :: (beBytes 32 a.publicKey ++ beBytes 64 a.signature)
  | .nodeSignedMsg a =>
      2 :: (beBytes 48 a.sectionPk ++ beBytes 32 a.publicKey ++ beBytes 64 a.signature)
  | .nodeBlsShareSignedMsg a =>
      3 :: (beBytes 48 a.sectionPk ++ beBytes 48 a.publicKeyShare ++
        beBytes 96 a.signatureShare)
  | .sectionSignedMsg a => 4 :: (beBytes 48 a.sectionPk ++ beBytes 96 a.signature)

/-- Modelled from the spec (§6): the dst-location tag byte, the 32-byte name,
and the 48-byte destination section key when the variant carries one. -/
def encodeDst : DstLocation → List Nat
  | .node nm pk => 0 :: (beBytes 32 nm ++ beBytes 48 pk)
  | .sectionDst nm pk => 1 :: (beBytes 32 nm ++ beBytes 48 pk)
  | .endUser nm => 2 :: beBytes 32 nm

/-- Decoder for `encodeMsgKind`, consuming from the front. -/
def decodeMsgKind : List Nat → Option (MsgKind × List Nat)
  | [] => none
  | t :: bs =>
    match t with
    | 0 => some (.sectionInfoMsg, bs)
    | 1 => do
        let r1 ← readBytes 32 bs
        let r2 ← readBytes 64 r1.2
        pure (.clientMsg ⟨r1.1, r2.1⟩, r2.2)
    | 2 => do
        let r1 ← readBytes 48 bs
        let r2 ← readBytes 32 r1.2
        let r3 ← readBytes 64 r2.2
        pure (.nodeSignedMsg ⟨r1.1, r2.1, r3.1⟩, r3.2)
    | 3 => do
        let r1 ← readBytes 48 bs
        let r2 ← readBytes 48 r1.2
        let r3 ← readBytes 96 r2.2
        pure (.nodeBlsShareSignedMsg ⟨r1.1, r2.1, r3.1⟩, r3.2)
    | 4 => do
        let r1 ← readBytes 48 bs
        let r2 ← readBytes 96 r1.2
        pure (.sectionSignedMsg ⟨r1.1, r2.1⟩, r2.2)
    | _ => none

/-- Decoder for `encodeDst`, consuming from the front. -/
def decodeDst : List Nat → Option (DstLocation × List Nat)
  | [] => none
  | t :: bs =>
    match t with
    | 0 => do
        let r1 ← readBytes 32 bs
        let r2 ← readBytes 48 r1.2
        pure (.node r1.1 r2.1, r2.2)
    | 1 => do
        let r1 ← readBytes 32 bs
        let r2 ← readBytes 48 r1.2
        pure (.sectionDst r1.1 r2.1, r2.2)
    | 2 => do
        let r1 ← readBytes 32 bs
        pure (.endUser r1.1, r1.2)
    | _ => none

/-- Field-width bounds making a `MsgKind` encodable. -/
def MsgKind.wf : MsgKind → Prop
  | .sectionInfoMsg => True
  | .clientMsg a => a.publicKey < 256 ^ 32 ∧ a.signature < 256 ^ 64
  | .nodeSignedMsg a =>
      a.sectionPk < 256 ^ 48 ∧ a.publicKey < 256 ^ 32 ∧ a.signature < 256 ^ 64
  | .nodeBlsShareSignedMsg a =>
      a.sectionPk < 256 ^ 48 ∧ a.publicKeyShare < 256 ^ 48 ∧
        a.signatureShare < 256 ^ 96
  | .sectionSignedMsg a => a.sectionPk < 256 ^ 48 ∧ a.signature < 256 ^ 96

/-- Field-width bounds making a `DstLocation` encodable. -/
def DstLocation.wf : DstLocation → Prop
  | .node nm pk => nm < 256 ^ 32 ∧ pk < 256 ^ 48
  | .sectionDst nm pk => nm < 256 ^ 32 ∧ pk < 256 ^ 48
  | .endUser nm => nm < 256 ^ 32

/-- The message envelope carried by the wire header: id, kind, destination
(spec §3 Wire Message). -/
structure MsgEnvelope where
  msgId : Nat
  msgKind : MsgKind
  dstLocation : DstLocation
deriving DecidableEq

/-- `WireMsgHeader` (its file `wire_msg_header.rs` is absent from the
snapshot): the header wraps the message envelope. -/
structure WireMsgHeader where
  msgEnvelope : MsgEnvelope
deriving DecidableEq

/-- A wire message: header plus serialized payload bytes
(src/messaging/serialisation/wire_msg.rs lines 26-29). -/
structure WireMsg where
  header : WireMsgHeader
  payload : List Nat
deriving DecidableEq

/-- Errors of the wire codec (spec §4.1). -/
inductive WireError where
  | malformed
  | unknownVersion
deriving DecidableEq

/-- The variable part of the serialized header: the 16-byte message id, the
msg-kind field, and the dst-location field. -/
def headerBody (e : MsgEnvelope) : List Nat :=
  beBytes 16 e.msgId ++ encodeMsgKind e.msgKind ++ encodeDst e.dstLocation

/-- Modelled from the spec (§6): `WireMsgHeader::write` emits the version and
the header length (two bytes each, the length counting the whole header)
followed by the header body. -/
def WireMsgHeader.write (h : WireMsgHeader) : List Nat :=
  beBytes 2 MSG_HEADER_VERSION ++ beBytes 2 (4 + (headerBody h.msgEnvelope).length) ++
    headerBody h.msgEnvelope

/-- Modelled from the spec (§4.1, §6): `WireMsgHeader::from` fails with
`Malformed` on short input and `UnknownVersion` on a version mismatch,
decodes the envelope fields, and splits the payload off at `header_len`. -/
def WireMsgHeader.parse (bytes : List Nat) :
    Except WireError (WireMsgHeader × List Nat) :=
  match readBytes 2 bytes with
  | none => .error .malformed
  | some (version, r1) =>
    if version ≠ MSG_HEADER_VERSION then .error .unknownVersion
    else
      match readBytes 2 r1 with
      | none => .error .malformed
      | some (headerLen, r2) =>
        match readBytes 16 r2 with
        | none => .error .malformed
        | some (msgId, r3) =>
          match decodeMsgKind r3 with
          | none => .error .malformed
          | some (kind, r4) =>
            match decodeDst r4 with
            | none => .error .malformed
            | some (dst, _) =>
              if headerLen ≤ bytes.length then
                .ok (⟨⟨msgId, kind, dst⟩⟩, bytes.drop headerLen)
              else .error .malformed

/-- `WireMsg::serialize` (src/messaging/serialisation/wire_msg.rs lines
85-101): the written header bytes followed by the payload bytes. -/
def WireMsg.serialize (m : WireMsg) : List Nat :=
  m.header.write ++ m.payload

/-- `WireMsg::from` (src/messaging/serialisation/wire_msg.rs lines 75-81):
parse the header, the remainder is the payload.  (`from` is a Lean keyword,
hence the name.) -/
def WireMsg.fromBytes (bytes : List Nat) : Except WireError WireMsg :=
  match WireMsgHeader.parse bytes with
  | .error e => .error e
  | .ok r => .ok ⟨r.1, r.2⟩

/-- Well-formedness of a wire message: each header field fits its wire
width. -/
def WireMsg.wf (m : WireMsg) : Prop :=
  m.header.msgEnvelope.msgId < 256 ^ 16 ∧ m.header.msgEnvelope.msgKind.wf ∧
    m.header.msgEnvelope.dstLocation.wf

/-! ## Theorems -/

theorem insertByDist_length (dst : XorName) (x : XorName × Addr)
    (l : List (XorName × Addr)) :
    (insertByDist dst x l).length = l.length + 1 := by
  induction l with
  | nil => rfl
  | cons y ys ih =>
      unfold insertByDist
      by_cases h : Nat.xor x.1 dst ≤ Nat.xor y.1 dst
      · simp [h]
      · simp [h, ih]

theorem sortByDist_length (dst : XorName) (l : List (XorName × Addr)) :
    (sortByDist dst l).length = l.length := by
  induction l with
  | nil => rfl
  | cons x xs ih => simp [sortByDist, insertByDist_length, ih]

theorem chosenElders_length (dst : XorName) (elders : List (XorName × Addr)) :
    (chosenElders dst elders).length =
      min elders.length NUM_OF_ELDERS_SUBSET_FOR_QUERIES := by
  simp [chosenElders, sortByDist_length, Nat.min_comm]

theorem queryLoop_chunk_ok_name (a : ChunkAddress) (n : Nat) :
    ∀ (rs : List QueryResponse) (d : Nat) (c : Chunk) (d' : Nat),
      queryLoop (some a) n d rs = (some (.getChunk (.ok c)), d') →
      c.name = a.name := by
  intro rs
  induction rs with
  | nil =>
      intro d c d' h
      simp [queryLoop] at h
  | cons r rest ih =>
      intro d c d' h
      cases r with
      | getChunk res =>
          cases res with
          | error e =>
              simp only [queryLoop] at h
              split_ifs at h
              · simp at h
              · exact ih _ _ _ h
          | ok chunk =>
              simp only [queryLoop] at h
              split_ifs at h with h1 h2
              · simp only [Prod.mk.injEq, Option.some.injEq, QueryResponse.getChunk.injEq,
                  Except.ok.injEq] at h
                obtain ⟨hr, -⟩ := h
                cases hr
                exact h1.symm
              · simp at h
              · exact ih _ _ _ h
      | getRegister res x =>
          cases res with
          | error e => simp [queryLoop] at h
          | ok v => simp [queryLoop] at h
      | getRegisterPolicy res x =>
          cases res with
          | error e => simp [queryLoop] at h
          | ok v => simp [queryLoop] at h
      | getRegisterOwner res x =>
          cases res with
          | error e => simp [queryLoop] at h
          | ok v => simp [queryLoop] at h
      | getRegisterUserPermissions res x =>
          cases res with
          | error e => simp [queryLoop] at h
          | ok v => simp [queryLoop] at h
      | otherResponse v =>
          simp [queryLoop] at h

theorem queryLoop_chunk_mismatch (a : ChunkAddress) (n : Nat) (d : Nat) (c : Chunk)
    (rest : List QueryResponse) (hne : c.name ≠ a.name) :
    queryLoop (some a) n d (.getChunk (.ok c) :: rest) =
      if d + 1 = n then (none, d + 1) else queryLoop (some a) n (d + 1) rest := by
  simp only [queryLoop]
  rw [if_neg (fun hh => hne hh.symm)]

theorem queryLoop_held_error (ca : Option ChunkAddress) (n : Nat) :
    ∀ (rs : List QueryResponse) (d : Nat) (r : QueryResponse) (d' : Nat),
      queryLoop ca n d rs = (some r, d') → isHeldError ca r = true → d' = n := by
  intro rs
  induction rs with
  | nil =>
      intro d r d' h hr
      simp [queryLoop] at h
  | cons q rest ih =>
      intro d r d' h hr
      cases q with
      | getChunk res =>
          cases res with
          | error e =>
              cases ca with
              | none =>
                  simp only [queryLoop] at h
                  simp only [Prod.mk.injEq, Option.some.injEq] at h
                  obtain ⟨hq, hd⟩ := h
                  cases hq
                  simp [isHeldError] at hr
              | some a =>
                  simp only [queryLoop] at h
                  split_ifs at h with h1
                  · simp only [Prod.mk.injEq, Option.some.injEq] at h
                    obtain ⟨-, hd⟩ := h
                    omega
                  · exact ih _ _ _ h hr
          | ok chunk =>
              cases ca with
              | none =>
                  simp only [queryLoop] at h
                  simp only [Prod.mk.injEq, Option.some.injEq] at h
                  obtain ⟨hq, hd⟩ := h
                  cases hq
                  simp [isHeldError] at hr
              | some a =>
                  simp only [queryLoop] at h
                  split_ifs at h with h1 h2
                  · simp only [Prod.mk.injEq, Option.some.injEq] at h
                    obtain ⟨hq, hd⟩ := h
                    cases hq
                    simp [isHeldError] at hr
                  · simp at h
                  · exact ih _ _ _ h hr
      | getRegister res x =>
          cases res with
          | error e =>
              cases ca with
              | none =>
                  simp only [queryLoop] at h
                  split_ifs at h with h1
                  · simp only [Prod.mk.injEq, Option.some.injEq] at h
                    obtain ⟨-, hd⟩ := h
                    omega
                  · exact ih _ _ _ h hr
              | some a =>
                  simp only [queryLoop] at h
                  simp only [Prod.mk.injEq, Option.some.injEq] at h
                  obtain ⟨hq, hd⟩ := h
                  cases hq
                  simp [isHeldError] at hr
          | ok v =>
              cases ca with
              | none =>
                  simp only [queryLoop] at h
                  simp only [Prod.mk.injEq, Option.some.injEq] at h
                  obtain ⟨hq, hd⟩ := h
                  cases hq
                  simp [isHeldError] at hr
              | some a =>
                  simp only [queryLoop] at h
                  simp only [Prod.mk.injEq, Option.some.injEq] at h
                  obtain ⟨hq, hd⟩ := h
                  cases hq
                  simp [isHeldError] at hr
      | getRegisterPolicy res x =>
          cases res with
          | error e =>
              cases ca with
              | none =>
                  simp only [queryLoop] at h
                  split_ifs at h with h1
                  · simp only [Prod.mk.injEq, Option.some.injEq] at h
                    obtain ⟨-, hd⟩ := h
                    omega
                  · exact ih _ _ _ h hr
              | some a =>
                  simp only [queryLoop] at h
                  simp only [Prod.mk.injEq, Option.some.injEq] at h
                  obtain ⟨hq, hd⟩ := h
                  cases hq
                  simp [isHeldError] at hr
          | ok v =>
              cases ca with
              | none =>
                  simp only [queryLoop] at h
                  simp only [Prod.mk.injEq, Option.some.injEq] at h
                  obtain ⟨hq, hd⟩ := h
                  cases hq
                  simp [isHeldError] at hr
              | some a =>
                  simp only [queryLoop] at h
                  simp only [Prod.mk.injEq, Option.some.injEq] at h
                  obtain ⟨hq, hd⟩ := h
                  cases hq
                  simp [isHeldError] at hr
      | getRegisterOwner res x =>
          cases res with
          | error e =>
              cases ca with
              | none =>
                  simp only [queryLoop] at h
                  split_ifs at h with h1
                  · simp only [Prod.mk.injEq, Option.some.injEq] at h
                    obtain ⟨-, hd⟩ := h
                    omega
                  · exact ih _ _ _ h hr
              | some a =>
                  simp only [queryLoop] at h
                  simp only [Prod.mk.injEq, Option.some.injEq] at h
                  obtain ⟨hq, hd⟩ := h
                  cases hq
                  simp [isHeldError] at hr
          | ok v =>
              cases ca with
              | none =>
                  simp only [queryLoop] at h
                  simp only [Prod.mk.injEq, Option.some.injEq] at h
                  obtain ⟨hq, hd⟩ := h
                  cases hq
                  simp [isHeldError] at hr
              | some a =>
                  simp only [queryLoop] at h
                  simp only [Prod.mk.injEq, Option.some.injEq] at h
                  obtain ⟨hq, hd⟩ := h
                  cases hq
                  simp [isHeldError] at hr
      | getRegisterUserPermissions res x =>
          cases res with
          | error e =>
              cases ca with
              | none =>
                  simp only [queryLoop] at h
                  split_ifs at h with h1
                  · simp only [Prod.mk.injEq, Option.some.injEq] at h
                    obtain ⟨-, hd⟩ := h
                    omega
                  · exact ih _ _ _ h hr
              | some a =>
                  simp only [queryLoop] at h
                  simp only [Prod.mk.injEq, Option.some.injEq] at h
                  obtain ⟨hq, hd⟩ := h
                  cases hq
                  simp [isHeldError] at hr
          | ok v =>
              cases ca with
              | none =>
                  simp only [queryLoop] at h
                  simp only [Prod.mk.injEq, Option.some.injEq] at h
                  obtain ⟨hq, hd⟩ := h
                  cases hq
                  simp [isHeldError] at hr
              | some a =>
                  simp only [queryLoop] at h
                  simp only [Prod.mk.injEq, Option.some.injEq] at h
                  obtain ⟨hq, hd⟩ := h
                  cases hq
                  simp [isHeldError] at hr
      | otherResponse v =>
          cases ca with
          | none =>
              simp only [queryLoop] at h
              simp only [Prod.mk.injEq, Option.some.injEq] at h
              obtain ⟨hq, hd⟩ := h
              cases hq
              simp [isHeldError] at hr
          | some a =>
              simp only [queryLoop] at h
              simp only [Prod.mk.injEq, Option.some.injEq] at h
              obtain ⟨hq, hd⟩ := h
              cases hq
              simp [isHeldError] at hr

theorem queryLoop_chunk_err_continue (a : ChunkAddress) (n d : Nat) (e : SnDataError)
    (rest : List QueryResponse) (hne : d + 1 ≠ n) :
    queryLoop (some a) n d (.getChunk (.error e) :: rest) =
      queryLoop (some a) n (d + 1) rest := by
  simp [queryLoop, hne]

theorem queryLoop_register_err_continue (n d : Nat) (e : SnDataError) (x : Nat)
    (rest : List QueryResponse) (hne : d + 1 ≠ n) :
    queryLoop none n d (.getRegister (.error e) x :: rest) =
      queryLoop none n (d + 1) rest := by
  simp [queryLoop, hne]

theorem queryLoop_register_policy_err_continue (n d : Nat) (e : SnDataError) (x : Nat)
    (rest : List QueryResponse) (hne : d + 1 ≠ n) :
    queryLoop none n d (.getRegisterPolicy (.error e) x :: rest) =
      queryLoop none n (d + 1) rest := by
  simp [queryLoop, hne]

theorem queryLoop_register_owner_err_continue (n d : Nat) (e : SnDataError) (x : Nat)
    (rest : List QueryResponse) (hne : d + 1 ≠ n) :
    queryLoop none n d (.getRegisterOwner (.error e) x :: rest) =
      queryLoop none n (d + 1) rest := by
  simp [queryLoop, hne]

theorem queryLoop_register_perms_err_continue (n d : Nat) (e : SnDataError) (x : Nat)
    (rest : List QueryResponse) (hne : d + 1 ≠ n) :
    queryLoop none n d (.getRegisterUserPermissions (.error e) x :: rest) =
      queryLoop none n (d + 1) rest := by
  simp [queryLoop, hne]

theorem sendQueryOutcome_none (ca : Option ChunkAddress) (n d : Nat)
    (rs : List QueryResponse) (h : (queryLoop ca n d rs).1 = none) :
    sendQueryOutcome ca n d rs = .error .noResponse := by
  simp [sendQueryOutcome, h]

/-- Claim C2: in `Session::send_query` for a chunk query, a `GetChunk(Ok(chunk))`
response is returned as the query result only if the chunk's hash (its name)
equals the queried XOR-name `dst`; a `GetChunk(Ok)` whose hash disagrees with
`dst` is discarded and counted toward the discarded-response total instead of
being returned. -/
theorem claim_C2 :
    (∀ (a : ChunkAddress) (n : Nat) (rs : List QueryResponse) (d : Nat) (c : Chunk) (d' : Nat),
        queryLoop (DataQuery.chunkAddr (.getChunk a)) n d rs =
          (some (.getChunk (.ok c)), d') →
        c.name = DataQuery.dstName (.getChunk a))
    ∧ (∀ (a : ChunkAddress) (n d : Nat) (c : Chunk) (rest : List QueryResponse),
        c.name ≠ DataQuery.dstName (.getChunk a) →
        queryLoop (some a) n d (.getChunk (.ok c) :: rest) =
          if d + 1 = n then (none, d + 1) else queryLoop (some a) n (d + 1) rest) := by
  constructor
  · intro a n rs d c d' h
    exact queryLoop_chunk_ok_name a n rs d c d' h
  · intro a n d c rest hne
    exact queryLoop_chunk_mismatch a n d c rest hne

theorem claim_C2_witness :
    Chunk.name ⟨5⟩ = DataQuery.dstName (.getChunk ⟨5⟩) ∧
      queryLoop (some ⟨5⟩) 3 0 [.getChunk (.ok ⟨7⟩)] =
        if 0 + 1 = 3 then (none, 0 + 1) else queryLoop (some ⟨5⟩) 3 (0 + 1) [] :=
  ⟨claim_C2.1 ⟨5⟩ 3 [.getChunk (.ok ⟨5⟩)] 0 ⟨5⟩ 0 (by decide),
   claim_C2.2 ⟨5⟩ 3 0 ⟨7⟩ [] (by decide)⟩

/-- Counterexample to claim C3 as stated: for a non-chunk query
(`chunk_addr = None`, three selected elders, nothing discarded yet), a
`GetChunk(Err)` response — an error response — does not match any of the
error-saving arms (they require `chunk_addr = Some`) and is returned
immediately by the catch-all arm, with the discarded count still `0 ≠ 3`. -/
theorem claim_C3_counterexample :
    queryLoop none 3 0 [.getChunk (.error 7)] = (some (.getChunk (.error 7)), 0) ∧
      isErrorResponse (.getChunk (.error 7)) = true ∧ (0 : Nat) ≠ 3 := by
  refine ⟨by decide, by decide, by decide⟩

/-- Claim C3 (amended): in `Session::send_query`, an error response of the
query's own kind (a `GetChunk` error for a chunk query, a register-query error
for a non-chunk query) is held as a fallback rather than returned immediately:
when such a response arrives and the discarded total has not reached the number
of selected elders, the loop continues, and such an error is returned as the
result only when the discarded total (failed sends plus discarded responses)
equals the number of selected elders.  An error response of a kind that does
not match the query falls to the catch-all arm and is returned immediately.
If no response at all is obtained the call fails with `NoResponse`. -/
theorem claim_C3_amended :
    (∀ (a : ChunkAddress) (n d : Nat) (e : SnDataError) (rest : List QueryResponse),
        d + 1 ≠ n →
        queryLoop (some a) n d (.getChunk (.error e) :: rest) =
          queryLoop (some a) n (d + 1) rest)
    ∧ (∀ (n d : Nat) (e : SnDataError) (x : Nat) (rest : List QueryResponse),
        d + 1 ≠ n →
        queryLoop none n d (.getRegister (.error e) x :: rest) =
          queryLoop none n (d + 1) rest)
    ∧ (∀ (n d : Nat) (e : SnDataError) (x : Nat) (rest : List QueryResponse),
        d + 1 ≠ n →
        queryLoop none n d (.getRegisterPolicy (.error e) x :: rest) =
          queryLoop none n (d + 1) rest)
    ∧ (∀ (n d : Nat) (e : SnDataError) (x : Nat) (rest : List QueryResponse),
        d + 1 ≠ n →
        queryLoop none n d (.getRegisterOwner (.error e) x :: rest) =
          queryLoop none n (d + 1) rest)
    ∧ (∀ (n d : Nat) (e : SnDataError) (x : Nat) (rest : List QueryResponse),
        d + 1 ≠ n →
        queryLoop none n d (.getRegisterUserPermissions (.error e) x :: rest) =
          queryLoop none n (d + 1) rest)
    ∧ (∀ (ca : Option ChunkAddress) (n : Nat) (rs : List QueryResponse)
          (d : Nat) (r : QueryResponse) (d' : Nat),
        queryLoop ca n d rs = (some r, d') → isHeldError ca r = true → d' = n)
    ∧ (∀ (ca : Option ChunkAddress) (n d : Nat) (rs : List QueryResponse),
        (queryLoop ca n d rs).1 = none →
        sendQueryOutcome ca n d rs = .error .noResponse) := by
  refine ⟨?_, ?_, ?_, ?_, ?_, ?_, ?_⟩
  · intro a n d e rest hne
    exact queryLoop_chunk_err_continue a n d e rest hne
  · intro n d e x rest hne
    exact queryLoop_register_err_continue n d e x rest hne
  · intro n d e x rest hne
    exact queryLoop_register_policy_err_continue n d e x rest hne
  · intro n d e x rest hne
    exact queryLoop_register_owner_err_continue n d e x rest hne
  · intro n d e x rest hne
    exact queryLoop_register_perms_err_continue n d e x rest hne
  · intro ca n rs d r d' h hr
    exact queryLoop_held_error ca n rs d r d' h hr
  · intro ca n d rs h
    exact sendQueryOutcome_none ca n d rs h

theorem claim_C3_amended_witness :
    queryLoop (some ⟨5⟩) 3 0 [.getChunk (.error 7)] = queryLoop (some ⟨5⟩) 3 1 [] ∧
      (2 : Nat) = 2 ∧ sendQueryOutcome none 2 0 [] = .error .noResponse :=
  ⟨claim_C3_amended.1 ⟨5⟩ 3 0 7 [] (by decide),
   claim_C3_amended.2.2.2.2.2.1 (some ⟨5⟩) 2 [.getChunk (.error 7), .getChunk (.error 8)]
     0 (.getChunk (.error 8)) 2 (by decide) (by decide),
   claim_C3_amended.2.2.2.2.2.2 none 2 0 [] (by decide)⟩

theorem selectQueryTargets_error_iff (dst : XorName) (elders : List (XorName × Addr))
    (err : ClientError) :
    selectQueryTargets dst elders = .error err ↔
      ((chosenElders dst elders).length = 2 ∧
        err = .insufficientElderConnections 2 NUM_OF_ELDERS_SUBSET_FOR_QUERIES) := by
  unfold selectQueryTargets
  by_cases hc : (chosenElders dst elders).length < NUM_OF_ELDERS_SUBSET_FOR_QUERIES ∧
      (chosenElders dst elders).length > 1
  · have h2 : (chosenElders dst elders).length = 2 := by
      obtain ⟨h1, h2⟩ := hc
      simp only [NUM_OF_ELDERS_SUBSET_FOR_QUERIES] at h1
      omega
    rw [if_pos hc, h2]
    constructor
    · intro h
      injection h with h
      exact ⟨rfl, h.symm⟩
    · rintro ⟨-, h⟩
      rw [h]
  · rw [if_neg hc]
    constructor
    · intro h
      cases h
    · rintro ⟨h2, -⟩
      exact absurd ⟨by simp [NUM_OF_ELDERS_SUBSET_FOR_QUERIES, h2], by omega⟩ hc

/-- Claim C10: the insufficient-elder guard in `Session::send_query` fires
(returning `Error::InsufficientElderConnections`) exactly when the number of
selected elders is strictly between 1 and `NUM_OF_ELDERS_SUBSET_FOR_QUERIES`,
i.e. exactly 2; the number of selected elders is the number of known elders
capped at `NUM_OF_ELDERS_SUBSET_FOR_QUERIES`; and with exactly one known elder
the query proceeds, targeted at that single elder. -/
theorem claim_C10 :
    (∀ (dst : XorName) (elders : List (XorName × Addr)),
        (chosenElders dst elders).length =
          min elders.length NUM_OF_ELDERS_SUBSET_FOR_QUERIES)
    ∧ (∀ (dst : XorName) (elders : List (XorName × Addr)) (err : ClientError),
        selectQueryTargets dst elders = .error err ↔
          ((chosenElders dst elders).length = 2 ∧
            err = .insufficientElderConnections 2 NUM_OF_ELDERS_SUBSET_FOR_QUERIES))
    ∧ (∀ (dst nm : XorName) (a : Addr),
        selectQueryTargets dst [(nm, a)] = .ok [a]) := by
  refine ⟨?_, ?_, ?_⟩
  · intro dst elders
    exact chosenElders_length dst elders
  · intro dst elders err
    exact selectQueryTargets_error_iff dst elders err
  · intro dst nm a
    simp [selectQueryTargets, chosenElders, sortByDist, insertByDist,
      NUM_OF_ELDERS_SUBSET_FOR_QUERIES]

theorem claim_C10_witness :
    selectQueryTargets 0 [(5, 9)] = .ok [9] ∧
      (selectQueryTargets 0 [(5, 9), (6, 10)] = .error (.insufficientElderConnections 2 3) ↔
        ((chosenElders 0 [(5, 9), (6, 10)]).length = 2 ∧
          (ClientError.insufficientElderConnections 2 3) =
            .insufficientElderConnections 2 NUM_OF_ELDERS_SUBSET_FOR_QUERIES)) :=
  ⟨claim_C10.2.2 0 5 9, claim_C10.2.1 0 [(5, 9), (6, 10)] (.insufficientElderConnections 2 3)⟩

theorem SectionPeers.update_subset (chain : SectionChain)
    (members : List (SectionAuth NodeState)) (ns : SectionAuth NodeState) :
    ∀ m ∈ (SectionPeers.update chain members ns).2, m = ns ∨ m ∈ members := by
  intro m hm
  unfold SectionPeers.update at hm
  cases hfind : members.find? (fun m => decide (m.value.name = ns.value.name)) with
  | none =>
      rw [hfind] at hm
      simp at hm
      rcases hm with h | h
      · exact Or.inl h
      · exact Or.inr h
  | some old =>
      rw [hfind] at hm
      dsimp only at hm
      by_cases hs : supersedes chain ns old
      · rw [if_pos hs] at hm
        simp at hm
        rcases hm with h | h
        · exact Or.inl h
        · exact Or.inr h.1
      · rw [if_neg hs] at hm
        exact Or.inr hm

/-- Claim C1: `Section::update_member` returns `false` and leaves the member
set unchanged whenever the signed node state does not verify against the
chain; consequently, if every member record verifies against the chain, that
remains true after any `update_member`, so every record admitted into
`members` is chain-verified. -/
theorem claim_C1 :
    (∀ (s : SnSection) (ns : SectionAuth NodeState),
        ns.verify s.chain = false → s.updateMember ns = (false, s))
    ∧ (∀ (s : SnSection) (ns : SectionAuth NodeState),
        (∀ m ∈ s.members, m.verify s.chain = true) →
        ∀ m ∈ (s.updateMember ns).2.members, m.verify s.chain = true) := by
  constructor
  · intro s ns h
    unfold SnSection.updateMember
    rw [h]
    rfl
  · intro s ns hall m hm
    unfold SnSection.updateMember at hm
    by_cases hv : ns.verify s.chain
    · rw [hv] at hm
      simp only [Bool.not_true, Bool.false_eq_true, if_false] at hm
      have := SectionPeers.update_subset s.chain s.members ns m hm
      rcases this with h | h
      · rw [h]
        exact hv
      · exact hall m h
    · rw [Bool.not_eq_true] at hv
      rw [hv] at hm
      simp only [Bool.not_false, if_true] at hm
      exact hall m hm

theorem claim_C1_witness :
    SnSection.updateMember c1Section c1BadState = (false, c1Section) ∧
      SectionAuth.verify c1GoodState c1Section.chain = true :=
  ⟨claim_C1.1 c1Section c1BadState (by decide),
   claim_C1.2 c1Section c1GoodState
      (by intro m hm; exact absurd hm (List.not_mem_nil m))
      c1GoodState (by decide)⟩

/-- Claim C4: with no split, `promote_and_demote_elders` returns the empty
vector exactly when the computed elder-candidate name set equals the current
elder name set or has fewer names than the supermajority of the current elder
count; and any single returned proposal carries at least
`supermajority(current)` candidate names. -/
theorem claim_C4 :
    (∀ (expectedPeers : List Peer) (currentNames : Finset XNameB) (pfx : Pfx),
        promoteAndDemoteElders none expectedPeers currentNames pfx = [] ↔
          ((expectedPeers.map Peer.name).toFinset = currentNames ∨
            (expectedPeers.map Peer.name).toFinset.card < supermajority currentNames.card))
    ∧ (∀ (expectedPeers : List Peer) (currentNames : Finset XNameB) (pfx : Pfx)
          (ec : ElderCandidates),
        promoteAndDemoteElders none expectedPeers currentNames pfx = [ec] →
          supermajority currentNames.card ≤ (expectedPeers.map Peer.name).toFinset.card) := by
  constructor
  · intro expectedPeers currentNames pfx
    unfold promoteAndDemoteElders
    by_cases h1 : (expectedPeers.map Peer.name).toFinset = currentNames
    · simp [h1]
    · rw [if_neg h1]
      by_cases h2 : (expectedPeers.map Peer.name).toFinset.card <
          supermajority currentNames.card
      · simp [h1, h2]
      · simp [h1, h2]
  · intro expectedPeers currentNames pfx ec h
    unfold promoteAndDemoteElders at h
    by_cases h1 : (expectedPeers.map Peer.name).toFinset = currentNames
    · rw [if_pos h1] at h
      cases h
    · rw [if_neg h1] at h
      by_cases h2 : (expectedPeers.map Peer.name).toFinset.card <
          supermajority currentNames.card
      · rw [if_pos h2] at h
        cases h
      · omega

theorem claim_C4_witness :
    promoteAndDemoteElders none [] (∅ : Finset XNameB) [] = [] ∧
      supermajority ({[false]} : Finset XNameB).card ≤
        (([⟨[true], 0, true⟩] : List Peer).map Peer.name).toFinset.card :=
  ⟨(claim_C4.1 [] ∅ []).mpr (Or.inl (by decide)),
   claim_C4.2 [⟨[true], 0, true⟩] {[false]} []
      (ElderCandidates.ofPeers [⟨[true], 0, true⟩] []) (by decide)⟩

theorem splitCounts_fold_sum (l : List Bool) :
    ∀ (a b : Nat),
      (l.foldl (fun os isOur => if isOur then (os.1 + 1, os.2) else (os.1, os.2 + 1))
          ((a : Nat), (b : Nat))).1 +
        (l.foldl (fun os isOur => if isOur then (os.1 + 1, os.2) else (os.1, os.2 + 1))
          ((a : Nat), (b : Nat))).2 = a + b + l.length := by
  induction l with
  | nil => intro a b; simp
  | cons x xs ih =>
      intro a b
      cases x
      · have := ih a (b + 1)
        simp only [List.foldl, List.length_cons]
        simp only [Bool.false_eq_true, if_false]
        rw [this]
        omega
      · have := ih (a + 1) b
        simp only [List.foldl, List.length_cons]
        simp only [if_true]
        rw [this]
        omega

theorem nodup_all_eq_length_le {α : Type} (l : List α) (c : α)
    (hn : l.Nodup) (hall : ∀ x ∈ l, x = c) : l.length ≤ 1 := by
  cases l with
  | nil => simp
  | cons x xs =>
      cases xs with
      | nil => simp
      | cons y ys =>
          exfalso
          have hx : x = c := hall x (by simp)
          have hy : y = c := hall y (by simp)
          rw [List.nodup_cons] at hn
          exact hn.1 (by simp [hx, hy])

theorem splitCounts_sum_le_one (pfx : Pfx) (ourName : XNameB) (mature : List Peer)
    (excludedNames : Finset XNameB)
    (hlen : pfx.length = 256)
    (hnames : ∀ p ∈ mature, p.name.length = 256)
    (hnodup : (mature.map Peer.name).Nodup)
    (hmatch : ∀ p ∈ mature, p.name.take pfx.length = pfx) :
    (splitCounts pfx ourName mature excludedNames).1 +
      (splitCounts pfx ourName mature excludedNames).2 ≤ 1 := by
  unfold splitCounts
  rw [splitCounts_fold_sum]
  simp only [List.length_map, Nat.zero_add]
  have hsub : (mature.filter (fun p => decide (p.name ∉ excludedNames))).Sublist mature :=
    List.filter_sublist mature
  have hmapsub :
      ((mature.filter (fun p => decide (p.name ∉ excludedNames))).map Peer.name).Sublist
        (mature.map Peer.name) := hsub.map Peer.name
  have hnodup' :
      ((mature.filter (fun p => decide (p.name ∉ excludedNames))).map Peer.name).Nodup :=
    hnodup.sublist hmapsub
  have hall : ∀ x ∈ (mature.filter (fun p => decide (p.name ∉ excludedNames))).map Peer.name,
      x = pfx := by
    intro x hx
    rw [List.mem_map] at hx
    obtain ⟨p, hp, hpx⟩ := hx
    have hpm : p ∈ mature := List.mem_of_mem_filter hp
    have h1 : p.name.take pfx.length = pfx := hmatch p hpm
    have h2 : p.name.length = 256 := hnames p hpm
    rw [hlen] at h1
    rw [List.take_of_length_le (by omega)] at h1
    rw [← hpx]
    exact h1
  have := nodup_all_eq_length_le _ pfx hnodup' hall
  simpa using this

/-- Claim C5: for a section whose state satisfies the documented invariants
(prefix of at most 256 bits, member names of 256 bits, at most one record per
name, every member matching the prefix), `Section::try_split` classifies each
mature non-excluded member by its bit at index `prefix.len()`, and returns
`Some` of two `ElderCandidates` — for the prefix extended by our bit and by
its complement — if and only if both halves count at least
`RECOMMENDED_SECTION_SIZE` such members; otherwise it returns `None`. -/
theorem claim_C5 :
    ∀ (pfx : Pfx) (ourName : XNameB) (mature : List Peer)
      (excludedNames : Finset XNameB) (selElders : Pfx → List Peer),
      pfx.length ≤ 256 →
      (∀ p ∈ mature, p.name.length = 256) →
      (mature.map Peer.name).Nodup →
      (∀ p ∈ mature, p.name.take pfx.length = pfx) →
      (∀ (a b : ElderCandidates),
          trySplit pfx ourName mature excludedNames selElders = some (a, b) →
          a.pfx = pfx.pushed (ourName.bit pfx.length) ∧
            b.pfx = pfx.pushed (!ourName.bit pfx.length)) ∧
        ((trySplit pfx ourName mature excludedNames selElders).isSome = true ↔
          (RECOMMENDED_SECTION_SIZE ≤ (splitCounts pfx ourName mature excludedNames).1 ∧
            RECOMMENDED_SECTION_SIZE ≤ (splitCounts pfx ourName mature excludedNames).2)) := by
  intro pfx ourName mature excludedNames selElders hlen hnames hnodup hmatch
  constructor
  · intro a b h
    by_cases hlt : pfx.length < 256
    · simp only [trySplit, if_pos hlt] at h
      split_ifs at h with hc
      all_goals cases h
      all_goals exact ⟨rfl, rfl⟩
    · simp only [trySplit, if_neg hlt] at h
      cases h
  · by_cases hlt : pfx.length < 256
    · simp only [trySplit, if_pos hlt]
      split_ifs with hc
      · simp only [Option.isSome_none, Bool.false_eq_true, false_iff]
        rintro ⟨h1, h2⟩
        omega
      · simp only [Option.isSome_some, true_iff]
        constructor
        · omega
        · omega
    · have hsum := splitCounts_sum_le_one pfx ourName mature excludedNames
        (by omega) hnames hnodup hmatch
      simp only [trySplit, if_neg hlt]
      simp only [Option.isSome_none, Bool.false_eq_true, false_iff]
      rintro ⟨h1, h2⟩
      simp only [RECOMMENDED_SECTION_SIZE] at h1 h2
      omega

theorem claim_C5_witness :
    (trySplit [] [] [] (∅ : Finset XNameB) (fun _ => [])).isSome = true ↔
      (RECOMMENDED_SECTION_SIZE ≤ (splitCounts [] [] [] (∅ : Finset XNameB)).1 ∧
        RECOMMENDED_SECTION_SIZE ≤ (splitCounts [] [] [] (∅ : Finset XNameB)).2) :=
  (claim_C5 [] [] [] ∅ (fun _ => []) (by decide) (by simp) (by simp) (by simp)).2

/-- Claim C6: `DkgVoter::start` with exactly one elder candidate, the local
node being that candidate and no session already stored for the key, returns
exactly one command — `HandleDkgOutcome` with the SAP built from the
candidates and a fresh key set of threshold 0, plus our key share — and
leaves the voter (sessions and backlog) unchanged. -/
theorem claim_C6 :
    ∀ (v : DkgVoter) (ourName : XNameB) (dkgKey : DkgSessionId)
      (ec : ElderCandidates) (seed : Nat) (initOk : Bool) (idx : Nat),
      (v.sessions.map Prod.fst).contains dkgKey = false →
      ec.position ourName = some idx →
      ec.elders.length = 1 →
      DkgVoter.start v ourName dkgKey ec seed initOk =
        ([Command.handleDkgOutcome
            (SectionAuthorityProvider.fromElderCandidates ec
              (SecretKeySet.random 0 seed).publicKeys)
            ⟨(SecretKeySet.random 0 seed).publicKeys, idx,
              (SecretKeySet.random 0 seed).secretKeyShare 0⟩], v) ∧
        (SecretKeySet.random 0 seed).publicKeys.threshold = 0 := by
  intro v ourName dkgKey ec seed initOk idx hc hp hl
  constructor
  · simp only [DkgVoter.start, hc, Bool.false_eq_true, if_false, hp, hl, if_true]
  · rfl

theorem claim_C6_witness :
    DkgVoter.start ⟨[], ⟨[], 100⟩⟩ [true] ⟨0, 0⟩ ⟨[([true], 3)], []⟩ 9 true =
      ([Command.handleDkgOutcome
          (SectionAuthorityProvider.fromElderCandidates ⟨[([true], 3)], []⟩
            (SecretKeySet.random 0 9).publicKeys)
          ⟨(SecretKeySet.random 0 9).publicKeys, 0,
            (SecretKeySet.random 0 9).secretKeyShare 0⟩], ⟨[], ⟨[], 100⟩⟩) ∧
      (SecretKeySet.random 0 9).publicKeys.threshold = 0 :=
  claim_C6 ⟨[], ⟨[], 100⟩⟩ [true] ⟨0, 0⟩ ⟨[([true], 3)], []⟩ 9 true 0
    (by decide) (by decide) (by decide)

theorem foldl_processMessage_log (msgs : List DkgMessage) :
    ∀ (s : DkgSession),
      (msgs.foldl (fun s m => (DkgSession.processMessage s m).2) s).keyGen.log =
        s.keyGen.log ++ msgs := by
  induction msgs with
  | nil => intro s; simp
  | cons m ms ih =>
      intro s
      simp only [List.foldl]
      rw [ih]
      simp [DkgSession.processMessage]

theorem find?_append_singleton {α : Type} (l : List α) (x : α) (p : α → Bool)
    (hl : ∀ y ∈ l, p y = false) (hx : p x = true) :
    (l ++ [x]).find? p = some x := by
  induction l with
  | nil => simp [List.find?, hx]
  | cons y ys ih =>
      have hy := hl y (by simp)
      simp only [List.cons_append, List.find?, hy]
      exact ih (fun z hz => hl z (by simp [hz]))

theorem DkgVoter.start_create (v : DkgVoter) (ourName : XNameB) (dkgKey : DkgSessionId)
    (ec : ElderCandidates) (seed : Nat) (idx : Nat)
    (hc : (v.sessions.map Prod.fst).contains dkgKey = false)
    (hp : ec.position ourName = some idx)
    (hl : ec.elders.length ≠ 1) :
    DkgVoter.start v ourName dkgKey ec seed true =
      ([Command.sendDkgMessage dkgKey
          (KeyGen.make ourName (supermajority ec.elders.length - 1)
            (ec.elders.map Prod.fst)).2],
        { sessions :=
            (v.sessions ++
              [(dkgKey,
                (v.backlog.take dkgKey).1.foldl
                  (fun s m => (DkgSession.processMessage s m).2)
                  ⟨(KeyGen.make ourName (supermajority ec.elders.length - 1)
                      (ec.elders.map Prod.fst)).1, ec, idx, 0, false⟩)]).filter
              (fun e => decide (dkgKey.generation ≤ e.1.generation)),
          backlog := (v.backlog.take dkgKey).2.prune dkgKey }) := by
  simp only [DkgVoter.start, hc, Bool.false_eq_true, if_false, hp, if_neg hl, if_true,
    DkgSession.broadcast]

/-- Claim C7: a DKG message for an unknown session identifier is stored in
the backlog and produces no commands; and when `DkgVoter::start` later
creates the session for that identifier, the messages backlogged under it
are removed from the backlog and fed to the new session exactly once, in
arrival order (the session's message log is exactly the backlogged sequence,
and the resulting backlog holds no message for that identifier). -/
theorem claim_C7 :
    (∀ (v : DkgVoter) (dkgKey : DkgSessionId) (m : DkgMessage),
        v.sessions.find? (fun e => decide (e.1 = dkgKey)) = none →
        DkgVoter.processMessage v dkgKey m =
            ([], { v with backlog := v.backlog.push dkgKey m }) ∧
          (dkgKey, m) ∈ (v.backlog.push dkgKey m).entries)
    ∧ (∀ (v : DkgVoter) (ourName : XNameB) (dkgKey : DkgSessionId)
          (ec : ElderCandidates) (seed : Nat) (idx : Nat),
        (∀ e ∈ v.sessions, e.1 ≠ dkgKey) →
        ec.position ourName = some idx →
        ec.elders.length ≠ 1 →
        (((DkgVoter.start v ourName dkgKey ec seed true).2.sessions.find?
              (fun e => decide (e.1 = dkgKey))).map (fun e => e.2.keyGen.log) =
            some (v.backlog.take dkgKey).1 ∧
          ∀ e ∈ (DkgVoter.start v ourName dkgKey ec seed true).2.backlog.entries,
            e.1 ≠ dkgKey)) := by
  constructor
  · intro v dkgKey m hfind
    constructor
    · unfold DkgVoter.processMessage
      rw [hfind]
    · unfold DkgBacklog.push
      simp
  · intro v ourName dkgKey ec seed idx hne hp hl
    have hc : (v.sessions.map Prod.fst).contains dkgKey = false := by
      by_contra hcc
      rw [Bool.not_eq_false] at hcc
      have hmem : dkgKey ∈ v.sessions.map Prod.fst := by
        have helem : (v.sessions.map Prod.fst).elem dkgKey = true := hcc
        exact (List.elem_iff).mp helem
      rw [List.mem_map] at hmem
      obtain ⟨e, he, hek⟩ := hmem
      exact hne e he hek
    rw [DkgVoter.start_create v ourName dkgKey ec seed idx hc hp hl]
    constructor
    · have hfind : ((v.sessions ++
          [(dkgKey,
            (v.backlog.take dkgKey).1.foldl
              (fun s m => (DkgSession.processMessage s m).2)
              ⟨(KeyGen.make ourName (supermajority ec.elders.length - 1)
                  (ec.elders.map Prod.fst)).1, ec, idx, 0, false⟩)]).filter
            (fun e => decide (dkgKey.generation ≤ e.1.generation))).find?
            (fun e => decide (e.1 = dkgKey)) =
          some (dkgKey,
            (v.backlog.take dkgKey).1.foldl
              (fun s m => (DkgSession.processMessage s m).2)
              ⟨(KeyGen.make ourName (supermajority ec.elders.length - 1)
                  (ec.elders.map Prod.fst)).1, ec, idx, 0, false⟩) := by
        rw [List.filter_append]
        have hsingle :
            ([(dkgKey,
              (v.backlog.take dkgKey).1.foldl
                (fun s m => (DkgSession.processMessage s m).2)
                ⟨(KeyGen.make ourName (supermajority ec.elders.length - 1)
                    (ec.elders.map Prod.fst)).1, ec, idx, 0,
                  false⟩)].filter
              (fun e => decide (dkgKey.generation ≤ e.1.generation))) =
            [(dkgKey,
              (v.backlog.take dkgKey).1.foldl
                (fun s m => (DkgSession.processMessage s m).2)
                ⟨(KeyGen.make ourName (supermajority ec.elders.length - 1)
                    (ec.elders.map Prod.fst)).1, ec, idx, 0, false⟩)] := by
          simp
        rw [hsingle]
        refine find?_append_singleton _ _ _ ?_ (by simp)
        intro y hy
        have hyl : y ∈ v.sessions := List.mem_of_mem_filter hy
        simp only [decide_eq_false_iff_not]
        exact hne y hyl
      rw [hfind]
      simp only [Option.map_some']
      rw [foldl_processMessage_log]
      simp [KeyGen.make]
    · intro e he
      unfold DkgBacklog.prune at he
      simp only at he
      have he2 : e ∈ (v.backlog.take dkgKey).2.entries := List.mem_of_mem_filter he
      unfold DkgBacklog.take at he2
      simp only at he2
      rw [List.mem_filter] at he2
      have := he2.2
      simp only [decide_eq_true_eq] at this
      exact this

/-- Counterexample to claim C8 as stated: a voter holding a generation-5
session (the newest generation it has seen) runs `start` for a generation-3
session identifier.  The retain pass only removes sessions older than the
*current* key's generation (3), so the generation-3 session is added and kept
while generation 5 remains: the map now holds a session strictly older than
the newest generation seen. -/
theorem claim_C8_counterexample :
    ((DkgVoter.start c8Voter [true] ⟨1, 3⟩ ⟨[([true], 0), ([false], 1)], []⟩ 0
          true).2.sessions.map (fun e => e.1.generation)) = [5, 3] ∧ (3 : Nat) < 5 := by
  constructor
  · decide
  · decide

/-- Claim C8 (amended): after every `DkgVoter::start` that creates and stores
a session, the session map retains only sessions whose generation is at least
the generation of the session identifier just started (older ones are
removed); nothing relates the map to the newest generation ever seen. -/
theorem claim_C8_amended :
    ∀ (v : DkgVoter) (ourName : XNameB) (dkgKey : DkgSessionId)
      (ec : ElderCandidates) (seed : Nat) (idx : Nat),
      (v.sessions.map Prod.fst).contains dkgKey = false →
      ec.position ourName = some idx →
      ec.elders.length ≠ 1 →
      ∀ e ∈ (DkgVoter.start v ourName dkgKey ec seed true).2.sessions,
        dkgKey.generation ≤ e.1.generation := by
  intro v ourName dkgKey ec seed idx hc hp hl e he
  rw [DkgVoter.start_create v ourName dkgKey ec seed idx hc hp hl] at he
  simp only at he
  rw [List.mem_filter] at he
  have := he.2
  simp only [decide_eq_true_eq] at this
  exact this

theorem claim_C8_amended_witness :
    (⟨1, 3⟩ : DkgSessionId).generation ≤ (⟨1, 3⟩ : DkgSessionId).generation :=
  claim_C8_amended ⟨[], ⟨[], 100⟩⟩ [true] ⟨1, 3⟩ ⟨[([true], 0), ([false], 1)], []⟩ 0 0
    (by decide) (by decide) (by decide)
    (⟨1, 3⟩,
      ⟨⟨[true], 1, [[true], [false]], []⟩, ⟨[([true], 0), ([false], 1)], []⟩, 0, 0, false⟩)
    (by decide)

theorem claim_C7_witness :
    (DkgVoter.processMessage ⟨[], ⟨[], 100⟩⟩ ⟨1, 3⟩ 7 =
        ([], ⟨[], ⟨[(⟨1, 3⟩, 7)], 100⟩⟩) ∧
      ((⟨1, 3⟩ : DkgSessionId), (7 : DkgMessage)) ∈
        (DkgBacklog.push ⟨[], 100⟩ ⟨1, 3⟩ 7).entries) ∧
      (((DkgVoter.start ⟨[], ⟨[(⟨1, 3⟩, 7), (⟨0, 9⟩, 4), (⟨1, 3⟩, 8)], 100⟩⟩ [true] ⟨1, 3⟩
              ⟨[([true], 0), ([false], 1)], []⟩ 0 true).2.sessions.find?
            (fun e => decide (e.1 = (⟨1, 3⟩ : DkgSessionId)))).map
          (fun e => e.2.keyGen.log) =
        some ((DkgBacklog.take ⟨[(⟨1, 3⟩, 7), (⟨0, 9⟩, 4), (⟨1, 3⟩, 8)], 100⟩ ⟨1, 3⟩).1)) :=
  ⟨claim_C7.1 ⟨[], ⟨[], 100⟩⟩ ⟨1, 3⟩ 7 (by decide),
   (claim_C7.2 ⟨[], ⟨[(⟨1, 3⟩, 7), (⟨0, 9⟩, 4), (⟨1, 3⟩, 8)], 100⟩⟩ [true] ⟨1, 3⟩
      ⟨[([true], 0), ([false], 1)], []⟩ 0 0
      (by intro e he; exact absurd he (List.not_mem_nil e)) (by decide) (by decide)).1⟩

theorem beBytes_length : ∀ (w n : Nat), (beBytes w n).length = w := by
  intro w
  induction w with
  | zero => intro n; rfl
  | succ w ih => intro n; simp [beBytes, ih]

theorem mod_pow_succ (n w : Nat) :
    n % 256 ^ (w + 1) = n / 256 ^ w % 256 * 256 ^ w + n % 256 ^ w := by
  rw [pow_succ, Nat.mod_mul]
  ring

theorem natOfBe_beBytes : ∀ (w n : Nat), natOfBe (beBytes w n) = n % 256 ^ w := by
  intro w
  induction w with
  | zero => intro n; simp [beBytes, natOfBe, Nat.mod_one]
  | succ w ih =>
      intro n
      simp only [beBytes, natOfBe, beBytes_length]
      rw [ih, ← mod_pow_succ]

theorem readBytes_exact (w : Nat) (l rest : List Nat) (h : l.length = w) :
    readBytes w (l ++ rest) = some (natOfBe l, rest) := by
  unfold readBytes
  rw [if_pos (by simp [← h])]
  have ht : (l ++ rest).take w = l := by rw [← h]; exact List.take_left l rest
  have hd : (l ++ rest).drop w = rest := by rw [← h]; exact List.drop_left l rest
  rw [ht, hd]

theorem readBytes_be (w n : Nat) (rest : List Nat) (h : n < 256 ^ w) :
    readBytes w (beBytes w n ++ rest) = some (n, rest) := by
  rw [readBytes_exact w (beBytes w n) rest (beBytes_length w n), natOfBe_beBytes,
    Nat.mod_eq_of_lt h]

theorem decodeMsgKind_encode (k : MsgKind) (rest : List Nat) (hk : k.wf) :
    decodeMsgKind (encodeMsgKind k ++ rest) = some (k, rest) := by
  cases k with
  | sectionInfoMsg => rfl
  | clientMsg a =>
      obtain ⟨h1, h2⟩ := hk
      simp only [encodeMsgKind, List.cons_append, List.append_assoc, decodeMsgKind]
      rw [readBytes_be 32 a.publicKey _ h1]
      simp only [Option.bind_eq_bind, Option.some_bind]
      rw [readBytes_be 64 a.signature rest h2]
      rfl
  | nodeSignedMsg a =>
      obtain ⟨h1, h2, h3⟩ := hk
      simp only [encodeMsgKind, List.cons_append, List.append_assoc, decodeMsgKind]
      rw [readBytes_be 48 a.sectionPk _ h1]
      simp only [Option.bind_eq_bind, Option.some_bind]
      rw [readBytes_be 32 a.publicKey _ h2]
      simp only [Option.some_bind]
      rw [readBytes_be 64 a.signature rest h3]
      rfl
  | nodeBlsShareSignedMsg a =>
      obtain ⟨h1, h2, h3⟩ := hk
      simp only [encodeMsgKind, List.cons_append, List.append_assoc, decodeMsgKind]
      rw [readBytes_be 48 a.sectionPk _ h1]
      simp only [Option.bind_eq_bind, Option.some_bind]
      rw [readBytes_be 48 a.publicKeyShare _ h2]
      simp only [Option.some_bind]
      rw [readBytes_be 96 a.signatureShare rest h3]
      rfl
  | sectionSignedMsg a =>
      obtain ⟨h1, h2⟩ := hk
      simp only [encodeMsgKind, List.cons_append, List.append_assoc, decodeMsgKind]
      rw [readBytes_be 48 a.sectionPk _ h1]
      simp only [Option.bind_eq_bind, Option.some_bind]
      rw [readBytes_be 96 a.signature rest h2]
      rfl

theorem decodeDst_encode (d : DstLocation) (rest : List Nat) (hd : d.wf) :
    decodeDst (encodeDst d ++ rest) = some (d, rest) := by
  cases d with
  | node nm pk =>
      obtain ⟨h1, h2⟩ := hd
      simp only [encodeDst, List.cons_append, List.append_assoc, decodeDst]
      rw [readBytes_be 32 nm _ h1]
      simp only [Option.bind_eq_bind, Option.some_bind]
      rw [readBytes_be 48 pk rest h2]
      rfl
  | sectionDst nm pk =>
      obtain ⟨h1, h2⟩ := hd
      simp only [encodeDst, List.cons_append, List.append_assoc, decodeDst]
      rw [readBytes_be 32 nm _ h1]
      simp only [Option.bind_eq_bind, Option.some_bind]
      rw [readBytes_be 48 pk rest h2]
      rfl
  | endUser nm =>
      simp only [encodeDst, List.cons_append, decodeDst]
      rw [readBytes_be 32 nm rest hd]
      rfl

theorem encodeMsgKind_length_le (k : MsgKind) : (encodeMsgKind k).length ≤ 193 := by
  cases k with
  | sectionInfoMsg => simp [encodeMsgKind]
  | clientMsg a => simp [encodeMsgKind, beBytes_length]
  | nodeSignedMsg a => simp [encodeMsgKind, beBytes_length]
  | nodeBlsShareSignedMsg a => simp [encodeMsgKind, beBytes_length]
  | sectionSignedMsg a => simp [encodeMsgKind, beBytes_length]

theorem encodeDst_length_le (d : DstLocation) : (encodeDst d).length ≤ 81 := by
  cases d with
  | node nm pk => simp [encodeDst, beBytes_length]
  | sectionDst nm pk => simp [encodeDst, beBytes_length]
  | endUser nm => simp [encodeDst, beBytes_length]

theorem headerBody_length_le (e : MsgEnvelope) : (headerBody e).length ≤ 290 := by
  have h1 := encodeMsgKind_length_le e.msgKind
  have h2 := encodeDst_length_le e.dstLocation
  simp only [headerBody, List.length_append, beBytes_length]
  omega

theorem WireMsgHeader.parse_write (h : WireMsgHeader) (payload : List Nat)
    (hid : h.msgEnvelope.msgId < 256 ^ 16) (hk : h.msgEnvelope.msgKind.wf)
    (hd : h.msgEnvelope.dstLocation.wf) :
    WireMsgHeader.parse (h.write ++ payload) = .ok (h, payload) := by
  have hlenbound : 4 + (headerBody h.msgEnvelope).length < 256 ^ 2 := by
    have := headerBody_length_le h.msgEnvelope
    norm_num
    omega
  have hassoc : h.write ++ payload =
      beBytes 2 MSG_HEADER_VERSION ++
        (beBytes 2 (4 + (headerBody h.msgEnvelope).length) ++
          (beBytes 16 h.msgEnvelope.msgId ++
            (encodeMsgKind h.msgEnvelope.msgKind ++
              (encodeDst h.msgEnvelope.dstLocation ++ payload)))) := by
    simp [WireMsgHeader.write, headerBody, List.append_assoc]
  have hverbound : MSG_HEADER_VERSION < 256 ^ 2 := by norm_num [MSG_HEADER_VERSION]
  have hdroplen : (h.write ++ payload).length = 4 + (headerBody h.msgEnvelope).length +
      payload.length := by
    simp [WireMsgHeader.write, List.length_append, beBytes_length]
    omega
  have hdrop : (h.write ++ payload).drop (4 + (headerBody h.msgEnvelope).length) =
      payload := by
    have hwl : (h.write).length = 4 + (headerBody h.msgEnvelope).length := by
      simp [WireMsgHeader.write, List.length_append, beBytes_length]
      omega
    rw [← hwl]
    exact List.drop_left _ _
  rw [WireMsgHeader.parse]
  rw [hassoc]
  rw [readBytes_be 2 MSG_HEADER_VERSION _ hverbound]
  simp only [ne_eq, not_true_eq_false, if_false, ite_false]
  rw [readBytes_be 2 (4 + (headerBody h.msgEnvelope).length) _ hlenbound]
  dsimp only
  rw [readBytes_be 16 h.msgEnvelope.msgId _ hid]
  dsimp only
  rw [decodeMsgKind_encode _ _ hk]
  dsimp only
  rw [decodeDst_encode _ _ hd]
  dsimp only
  rw [← hassoc]
  rw [if_pos (by rw [hdroplen]; omega)]
  rw [hdrop]

/-- Claim C9: for every well-formed wire message, deserializing the bytes
produced by serialization yields the message back —
`WireMsg::from(WireMsg::serialize(m)) == m` — so the header fields (message
id, message kind, destination) and the payload bytes are all preserved. -/
theorem claim_C9 :
    ∀ (m : WireMsg), m.wf → WireMsg.fromBytes (WireMsg.serialize m) = .ok m := by
  intro m hm
  obtain ⟨hid, hk, hd⟩ := hm
  unfold WireMsg.fromBytes WireMsg.serialize
  rw [WireMsgHeader.parse_write m.header m.payload hid hk hd]

theorem claim_C9_witness :
    WireMsg.fromBytes
        (WireMsg.serialize ⟨⟨⟨7, .clientMsg ⟨1, 2⟩, .node 3 4⟩⟩, [9, 10]⟩) =
      .ok ⟨⟨⟨7, .clientMsg ⟨1, 2⟩, .node 3 4⟩⟩, [9, 10]⟩ :=
  claim_C9 ⟨⟨⟨7, .clientMsg ⟨1, 2⟩, .node 3 4⟩⟩, [9, 10]⟩
    ⟨by norm_num, ⟨by norm_num, by norm_num⟩, by norm_num, by norm_num⟩
